import Mathlib

/-!
Shallow embedding of the schedule-consistency core of the calendar-modular
repository: the calendar event model, the drag/resize handlers and the
overlap detection from `src/pages/Calendar.tsx`, the entry validation from
the manual-entry page and `src/pages/AddEvent.tsx`, and the ICS export
service (`generateICS`, `exportCalendar`, `getNextDayOfWeek`, `escapeText`).

Modelling conventions:
* a calendar instant is a number of minutes since an epoch whose day 0 is a
  Sunday (so `getDay` of a date `d` — the weekday index used by JavaScript,
  with 0 = Sunday — is `d % 7` when dates are counted in whole days);
* a date (a JavaScript `Date` truncated to midnight) is a day count `d : Nat`,
  and a concrete instant on that date is `d * 1440 + h * 60 + m`;
* database writes and mirrored React-state updates set the same fields, so a
  handler is modelled as a pure function from the event list to the updated
  event list;
* `HH:MM[:SS]` time strings already split by `split(':')` and `parseInt` are
  modelled as the resulting `(hour, minute)` pair.
-/

namespace CalendarModular

/-- The `resource` payload of a calendar event (interface `ClassEvent` in
`Calendar.tsx`). `is_fixed` distinguishes catalog classes from flexible
personal events. -/
structure Resource where
  course_code : Option String
  «section» : Option String
  instructor : Option String
  location : Option String
  is_fixed : Bool
  category : Option String
deriving DecidableEq

/-- A calendar event as held in the `events` React state of `Calendar.tsx`
(interface `ClassEvent`): `start`/`end` are instants in minutes. -/
structure ClassEvent where
  id : String
  title : String
  start : Nat
  «end» : Nat
  resource : Resource
deriving DecidableEq

/-- `handleEventDrop` (Calendar.tsx:245-278): fixed events are refused with an
alert and an early return (no database write, no state change); for flexible
events the proposed `start`/`end` are written verbatim to the store and the
matching entry of the local state. -/
def handleEventDrop (events : List ClassEvent) (event : ClassEvent)
    (start stop : Nat) : List ClassEvent :=
  if event.resource.is_fixed then events
  else
    events.map fun evt =>
      if evt.id = event.id then { evt with start := start, «end» := stop } else evt

/-- `handleEventResize` (Calendar.tsx:280-313): same body as `handleEventDrop`
(fixed events refused, otherwise the proposed interval is committed verbatim). -/
def handleEventResize (events : List ClassEvent) (event : ClassEvent)
    (start stop : Nat) : List ClassEvent :=
  if event.resource.is_fixed then events
  else
    events.map fun evt =>
      if evt.id = event.id then { evt with start := start, «end» := stop } else evt

/-- `eventsOverlap` (Calendar.tsx:186-192): half-open interval intersection of
two events with distinct ids (`event1.start < event2.end && event1.end >
event2.start`). -/
def eventsOverlap (event1 event2 : ClassEvent) : Bool :=
  event1.id ≠ event2.id && event1.start < event2.«end» && event1.«end» > event2.start

/-- `getOverlappingEvents` (Calendar.tsx:195-197): all events of the current
state that overlap a given event. -/
def getOverlappingEvents (events : List ClassEvent) (event : ClassEvent) :
    List ClassEvent :=
  events.filter fun e => eventsOverlap event e

/-- JavaScript default `Array.prototype.sort` comparison on strings: code-unit
lexicographic `≤`, here on the character lists of the (ASCII) id strings. -/
def charListLe : List Char → List Char → Bool
  | [], _ => true
  | _ :: _, [] => false
  | c :: cs, d :: ds => if c = d then charListLe cs ds else decide (c.toNat < d.toNat)

/-- String `≤` as used by `[a, b].sort()` on two id strings. -/
def strLe (a b : String) : Bool := charListLe a.data b.data

/-- The dedup key `[event.id, overlap.id].sort().join('-')` of
Calendar.tsx:710. -/
def pairKey (a b : String) : String :=
  if strLe a b then a ++ "-" ++ b else b ++ "-" ++ a

/-- The ordered candidate pairs scanned by the nested `forEach` of
Calendar.tsx:707-716: for each event, one pair per overlapping event, in
iteration order. -/
def overlapCandidates (events : List ClassEvent) : List (ClassEvent × ClassEvent) :=
  events.flatMap fun event =>
    (getOverlappingEvents events event).map fun overlap => (event, overlap)

/-- The `seen`-set filter of Calendar.tsx:705-715: a candidate pair is pushed
exactly when its `pairKey` has not been seen before. -/
def dedupPairs : List (ClassEvent × ClassEvent) → List String →
    List (ClassEvent × ClassEvent)
  | [], _ => []
  | p :: rest, seen =>
    if pairKey p.1.id p.2.id ∈ seen then dedupPairs rest seen
    else p :: dedupPairs rest (pairKey p.1.id p.2.id :: seen)

/-- `overlappingPairs` (Calendar.tsx:703-716): the deduplicated list of
overlapping event pairs displayed in the conflicts panel. -/
def overlappingPairs (events : List ClassEvent) : List (ClassEvent × ClassEvent) :=
  dedupPairs (overlapCandidates events) []

/-- The `dayMap` object of Calendar.tsx:115-117 (and `days` of
ClassCatalog.tsx:687-695): weekday-code letter to JavaScript `getDay` index,
`undefined` (here `none`) for unknown codes. -/
def dayMap (day : String) : Option Nat :=
  if day = "U" then some 0
  else if day = "M" then some 1
  else if day = "T" then some 2
  else if day = "W" then some 3
  else if day = "R" then some 4
  else if day = "F" then some 5
  else if day = "S" then some 6
  else none

/-- `eachDayOfInterval` (date-fns, as called at Calendar.tsx:123): the
inclusive list of dates from `s` to `e`, as day numbers. -/
def eachDayOfInterval (s e : Nat) : List Nat := List.range' s (e + 1 - s)

/-- A row of the `class_catalog` table (interface `ClassItem` of
ClassCatalog.tsx:10-22); `start_time`/`end_time` are the `(hour, minute)`
pairs obtained from the stored `HH:MM:SS` string by `split(':')`/`parseInt`. -/
structure ClassItem where
  id : String
  course_name : String
  course_code : Option String
  «section» : Option String
  instructor : Option String
  location : Option String
  days : List String
  start_time : Nat × Nat
  end_time : Nat × Nat
  is_hidden : Bool
deriving DecidableEq

/-- Minutes after midnight of a parsed `(hour, minute)` time of day. -/
def timeOfDay (t : Nat × Nat) : Nat := t.1 * 60 + t.2

/-- The calendar event pushed by `loadClasses` (Calendar.tsx:127-150) for one
class, one weekday code and one concrete date: the id combines class id,
weekday code and date, and the instants are the date at the class's daily
start/end times. -/
def classOccurrence (classItem : ClassItem) (day : String) (currentDate : Nat) :
    ClassEvent :=
  { id := classItem.id ++ "-" ++ day ++ "-" ++ toString currentDate
    title := classItem.course_name
    start := currentDate * 1440 + timeOfDay classItem.start_time
    «end» := currentDate * 1440 + timeOfDay classItem.end_time
    resource :=
      { course_code := classItem.course_code
        «section» := classItem.«section»
        instructor := classItem.instructor
        location := classItem.location
        is_fixed := true
        category := none } }

/-- The inner loop of the expansion (Calendar.tsx:119-153) for one weekday
code: nothing when the code is not in `dayMap` (`dayOfWeek === undefined`),
otherwise one occurrence per date of the inclusive range whose `getDay`
matches. -/
def expandClassDay (rangeStart rangeEnd : Nat) (classItem : ClassItem)
    (day : String) : List ClassEvent :=
  match dayMap day with
  | none => []
  | some dayOfWeek =>
    (eachDayOfInterval rangeStart rangeEnd).filterMap fun currentDate =>
      if currentDate % 7 = dayOfWeek then
        some (classOccurrence classItem day currentDate)
      else none

/-- The fixed-class expansion of `loadClasses` (Calendar.tsx:113-155): the
occurrences of every weekday code of the class over the view range. -/
def expandClass (rangeStart rangeEnd : Nat) (classItem : ClassItem) :
    List ClassEvent :=
  classItem.days.flatMap (expandClassDay rangeStart rangeEnd classItem)

/-- Reduction of `expandClassDay` at an unknown weekday code. -/
lemma expandClassDay_none {rangeStart rangeEnd : Nat} {classItem : ClassItem}
    {day : String} (h : dayMap day = none) :
    expandClassDay rangeStart rangeEnd classItem day = [] := by
  unfold expandClassDay
  rw [h]

/-- Reduction of `expandClassDay` at a recognized weekday code. -/
lemma expandClassDay_some {rangeStart rangeEnd : Nat} {classItem : ClassItem}
    {day : String} {w : Nat} (h : dayMap day = some w) :
    expandClassDay rangeStart rangeEnd classItem day =
      (eachDayOfInterval rangeStart rangeEnd).filterMap fun currentDate =>
        if currentDate % 7 = w then
          some (classOccurrence classItem day currentDate)
        else none := by
  unfold expandClassDay
  rw [h]

/-- The fixed part of `loadClasses`: the catalog query keeps only rows with
`is_hidden = false` (Calendar.tsx:69-73), and each surviving class is expanded
over the view range. -/
def loadFixedEvents (classes : List ClassItem) (rangeStart rangeEnd : Nat) :
    List ClassEvent :=
  (classes.filter fun c => !c.is_hidden).flatMap (expandClass rangeStart rangeEnd)

/-- A row of the `events` table (a flexible personal event); instants in
minutes. -/
structure FlexibleEvent where
  id : String
  title : String
  start_time : Nat
  end_time : Nat
  location : Option String
  description : Option String
  category : Option String
deriving DecidableEq

/-- The flexible part of `loadClasses` (Calendar.tsx:157-173): each stored
flexible event is pushed as one calendar event carrying its own interval. -/
def flexibleCalendarEvent (event : FlexibleEvent) : ClassEvent :=
  { id := event.id
    title := event.title
    start := event.start_time
    «end» := event.end_time
    resource :=
      { course_code := none
        «section» := none
        instructor := none
        location := event.location
        is_fixed := false
        category := event.category } }

/-- The full `calendarEvents` list assembled by `loadClasses` (Calendar.tsx:
92-175): expanded visible fixed classes followed by all flexible events. The
flexible query (Calendar.tsx:85-88) has no date constraint, so the view range
is only used for the fixed part. -/
def loadCalendarEvents (classes : List ClassItem) (flexibleEvents : List FlexibleEvent)
    (rangeStart rangeEnd : Nat) : List ClassEvent :=
  loadFixedEvents classes rangeStart rangeEnd ++ flexibleEvents.map flexibleCalendarEvent

/-- A candidate class of the manual-entry page (interface `ClassEntry` of the
`ManualEntry` component): all fields as typed, times still `HH:MM` strings. -/
structure ClassEntry where
  id : String
  course_name : String
  course_code : String
  «section» : String
  instructor : String
  location : String
  days : List String
  start_time : String
  end_time : String
deriving DecidableEq

/-- The validation loop of `handleSave` (ManualEntry): for each class in order,
throw on an empty course name, an empty day selection, a missing start time or
a missing end time; the thrown message carries the 1-based index. -/
def validateClassesFrom : Nat → List ClassEntry → Except String Unit
  | _, [] => .ok ()
  | i, c :: rest =>
    if c.course_name = "" then
      .error ("Class " ++ toString (i + 1) ++ ": Course name is required")
    else if c.days.length = 0 then
      .error ("Class " ++ toString (i + 1) ++ ": At least one day must be selected")
    else if c.start_time = "" then
      .error ("Class " ++ toString (i + 1) ++ ": Start time is required")
    else if c.end_time = "" then
      .error ("Class " ++ toString (i + 1) ++ ": End time is required")
    else validateClassesFrom (i + 1) rest

/-- A `class_catalog` row as built by `handleSave` for insertion (times get
`':00'` seconds appended, `is_hidden` starts `false`). -/
structure InsertRow where
  course_name : String
  course_code : Option String
  «section» : Option String
  instructor : Option String
  location : Option String
  days : List String
  start_time : String
  end_time : String
  is_hidden : Bool
deriving DecidableEq

/-- `x || null` on an optional text field. -/
def orNull (s : String) : Option String := if s = "" then none else some s

/-- `handleSave` (ManualEntry): validate every entered class, and only when
validation passes build and insert the catalog rows; a validation error
prevents any insert. -/
def handleSave (classes : List ClassEntry) : Except String (List InsertRow) :=
  match validateClassesFrom 0 classes with
  | .error e => .error e
  | .ok _ => .ok <| classes.map fun c =>
    { course_name := c.course_name
      course_code := orNull c.course_code
      «section» := orNull c.«section»
      instructor := orNull c.instructor
      location := orNull c.location
      days := c.days
      start_time := c.start_time ++ ":00"
      end_time := c.end_time ++ ":00"
      is_hidden := false }

/-- The `formData` of `AddEvent.tsx`. -/
structure EventForm where
  title : String
  description : String
  location : String
  category : String
  date : String
  start_time : String
  end_time : String
deriving DecidableEq

/-- An `events` row as inserted by `handleSubmit`; the start/end instants are
the form's date combined with the parsed `(hour, minute)` of each time. -/
structure EventRow where
  title : String
  description : Option String
  location : Option String
  category : String
  start_time : String × String
  end_time : String × String
  is_flexible : Bool
deriving DecidableEq

/-- `handleSubmit` (AddEvent.tsx:34-81): reject when the title, date, start
time or end time is empty; otherwise insert one flexible event combining the
date with each time. No comparison of start and end is performed. -/
def handleSubmit (formData : EventForm) : Except String EventRow :=
  if formData.title = "" ∨ formData.date = "" ∨ formData.start_time = "" ∨
      formData.end_time = "" then
    .error ("Please fill in all required fields")
  else
    .ok
      { title := formData.title
        description := orNull formData.description
        location := orNull formData.location
        category := formData.category
        start_time := (formData.date, formData.start_time)
        end_time := (formData.date, formData.end_time)
        is_flexible := true }

/-- `getNextDayOfWeek` (ClassCatalog.tsx:686-704) on a date given as a day
number `n` (so `date.getDay()` is `n % 7`): `daysToAdd = (targetDay -
currentDay + 7) % 7 || 7`, hence always a strictly later date. The JavaScript
expression equals `(targetDay + 7 - n % 7) % 7` for `targetDay < 7`. -/
def getNextDayOfWeek (n targetDay : Nat) : Nat :=
  n + (if (targetDay + 7 - n % 7) % 7 = 0 then 7 else (targetDay + 7 - n % 7) % 7)

/-- An export record (interface `CalendarEvent` of the calendar-export
service): `start`/`end` are `(date, minutes-after-midnight)` pairs, or `none`
when the weekday code was unknown (`days[dayCode]` undefined). -/
structure ExportEvent where
  id : String
  title : String
  start : Option (Nat × Nat)
  «end» : Option (Nat × Nat)
  location : Option String
  description : Option String
deriving DecidableEq

/-- The per-class loop of `exportCalendar` (ClassCatalog.tsx:614-641): one
record per entry of `days`, dated at the next future occurrence of that
weekday relative to export time `now`, carrying the class's daily times and
an id of the form `id-day`. -/
def exportClassRecords (now : Nat) (classItem : ClassItem) : List ExportEvent :=
  classItem.days.map fun day =>
    let baseDate := (dayMap day).map (getNextDayOfWeek now)
    { id := classItem.id ++ "-" ++ day
      title :=
        match classItem.course_code with
        | some code => code ++ ": " ++ classItem.course_name
        | none => classItem.course_name
      start := baseDate.map fun b => (b, timeOfDay classItem.start_time)
      «end» := baseDate.map fun b => (b, timeOfDay classItem.end_time)
      location := classItem.location
      description := none }

/-- The per-event branch of `exportCalendar` (ClassCatalog.tsx:644-653): each
stored personal event becomes one record with its own interval. -/
def exportEventRecord (event : FlexibleEvent) : ExportEvent :=
  { id := event.id
    title := event.title
    start := some (event.start_time / 1440, event.start_time % 1440)
    «end» := some (event.end_time / 1440, event.end_time % 1440)
    location := event.location
    description := event.description }

/-- The record assembly of `exportCalendar` (ClassCatalog.tsx:593-653): the
class query keeps only `is_hidden = false` rows, the events query has no
filter at all; class records precede event records. -/
def exportCalendarEvents (now : Nat) (classes : List ClassItem)
    (events : List FlexibleEvent) : List ExportEvent :=
  (classes.filter fun c => !c.is_hidden).flatMap (exportClassRecords now)
    ++ events.map exportEventRecord

/-- One global-replace pass of a single character by a replacement string,
on character lists (each `.replace(/x/g, r)` of `escapeText`). -/
def replaceChar (c : Char) (r : List Char) (s : List Char) : List Char :=
  s.flatMap fun x => if x = c then r else [x]

/-- `escapeText` (ClassCatalog.tsx:529-535): escape backslashes first, then
semicolons, commas and newlines, each by prefixing a backslash (newline
becomes the two characters `\n`). -/
def escapeText (text : List Char) : List Char :=
  replaceChar '\n' ['\\', 'n']
    (replaceChar ',' ['\\', ',']
      (replaceChar ';' ['\\', ';']
        (replaceChar '\\' ['\\', '\\'] text)))

/-- The per-character expansion that `escapeText` amounts to. -/
def escChar (c : Char) : List Char :=
  if c = '\\' then ['\\', '\\']
  else if c = ';' then ['\\', ';']
  else if c = ',' then ['\\', ',']
  else if c = '\n' then ['\\', 'n']
  else [c]

/-- A conformant iCalendar TEXT reader: a backslash escape yields the escaped
character (`\n` yielding a newline), any other character yields itself. -/
def unescapeText : List Char → List Char
  | [] => []
  | c :: rest =>
    if c = '\\' then
      match rest with
      | [] => ['\\']
      | d :: rest2 => (if d = 'n' then '\n' else d) :: unescapeText rest2
    else c :: unescapeText rest

/-- `escapeText` on `String`. -/
def escapeTextS (s : String) : String := String.mk (escapeText s.data)

/-- `formatDate` (ClassCatalog.tsx:524-526) on the `(date, minutes)` model: a
basic-format UTC stamp; `none` (an invalid date) renders as such. -/
def formatDate : Option (Nat × Nat) → String
  | some (d, t) => toString d ++ "T" ++ toString t ++ "Z"
  | none => "Invalid Date"

/-- The `VEVENT` lines pushed for one record by `generateICS`
(ClassCatalog.tsx:547-566): `LOCATION`/`DESCRIPTION` lines only when present,
all free text passed through `escapeText`. -/
def eventLines (timestamp : String) (event : ExportEvent) : List String :=
  ["BEGIN:VEVENT",
   "UID:" ++ event.id ++ "@calendar-modular.app",
   "DTSTAMP:" ++ timestamp,
   "DTSTART:" ++ formatDate event.start,
   "DTEND:" ++ formatDate event.«end»,
   "SUMMARY:" ++ escapeTextS event.title]
  ++ (match event.location with
      | some l => ["LOCATION:" ++ escapeTextS l]
      | none => [])
  ++ (match event.description with
      | some d => ["DESCRIPTION:" ++ escapeTextS d]
      | none => [])
  ++ ["STATUS:CONFIRMED", "SEQUENCE:0", "END:VEVENT"]

/-- `generateICS` (ClassCatalog.tsx:519-571) as its list of lines: the
calendar header (with the escaped calendar name), the event blocks, and the
closing line. -/
def generateICS (timestamp : String) (events : List ExportEvent)
    (calendarName : String) : List String :=
  ["BEGIN:VCALENDAR",
   "VERSION:2.0",
   "PRODID:-//Calendar Modular//EN",
   "X-WR-CALNAME:" ++ escapeTextS calendarName,
   "X-WR-TIMEZONE:America/New_York",
   "CALSCALE:GREGORIAN",
   "METHOD:PUBLISH"]
  ++ events.flatMap (eventLines timestamp)
  ++ ["END:VCALENDAR"]

/-! ## Claims about the drag/resize handlers (C1, C4, C5) -/

/-- A concrete fixed-class occurrence (9:00-10:00 on day 0). -/
def exFixedEvent : ClassEvent :=
  { id := "cls-M-0", title := "Algorithms", start := 540, «end» := 600
    resource :=
      { course_code := some ("CS101"), «section» := none, instructor := none
        location := none, is_fixed := true, category := none } }

/-- C1: a move or resize proposed against a fixed-sourced occurrence is always
rejected — both handlers return without committing anything, leaving every
stored event (in particular the block's interval) unchanged, for every
proposed interval. -/
theorem fixedBlock_mutation_always_rejected (events : List ClassEvent)
    (event : ClassEvent) (start stop : Nat) (h : event.resource.is_fixed = true) :
    handleEventDrop events event start stop = events ∧
    handleEventResize events event start stop = events := by
  constructor <;> simp [handleEventDrop, handleEventResize, h]

/-- Witness for C1 at a concrete fixed occurrence and the (even degenerate)
proposal `[0, 0)`. -/
theorem fixedBlock_mutation_always_rejected_witness :
    handleEventDrop [exFixedEvent] exFixedEvent 0 0 = [exFixedEvent] ∧
    handleEventResize [exFixedEvent] exFixedEvent 0 0 = [exFixedEvent] :=
  fixedBlock_mutation_always_rejected [exFixedEvent] exFixedEvent 0 0 (by decide)

/-- A concrete flexible event at 9:00-10:00 on day 0. -/
def exFlexEvent : ClassEvent :=
  { id := "ev1", title := "Study", start := 540, «end» := 600
    resource :=
      { course_code := none, «section» := none, instructor := none
        location := none, is_fixed := false, category := some ("study") } }

/-- Counterexample to C4: the claim says a proposed 9:07 start (minute 547) is
rounded to 9:00 (minute 540) before being committed. The handler commits the
proposed instants verbatim: after dropping at 9:07-10:07 the stored start is
547, not 540 (and resize behaves the same way). -/
theorem no_snap_counterexample :
    (handleEventDrop [exFlexEvent] exFlexEvent 547 607).map
        (fun evt => (evt.start, evt.«end»)) = [(547, 607)] ∧
    (handleEventResize [exFlexEvent] exFlexEvent 547 607).map
        (fun evt => (evt.start, evt.«end»)) = [(547, 607)] ∧
    (547 : Nat) ≠ 540 := by
  decide

/-- C4 as amended: no rounding is applied anywhere in the handlers — for a
flexible event the proposed start and end are committed exactly as proposed,
and the move and resize paths are the same function (the 15-minute grid is
only the calendar widget's `step={15}` display configuration). -/
theorem handlers_commit_verbatim (events : List ClassEvent) (event : ClassEvent)
    (s e : Nat) (h : event.resource.is_fixed = false) :
    (∀ evt ∈ handleEventDrop events event s e,
        evt.id = event.id → evt.start = s ∧ evt.«end» = e) ∧
    handleEventDrop events event s e = handleEventResize events event s e := by
  refine ⟨?_, rfl⟩
  intro evt hm hid
  rw [handleEventDrop, if_neg (by simp [h])] at hm
  obtain ⟨orig, _, rfl⟩ := List.mem_map.1 hm
  by_cases hoid : orig.id = event.id
  · simp [hoid]
  · simp [hoid] at hid

/-- Witness for C4 (amended) at the concrete 9:07-10:07 proposal. -/
theorem handlers_commit_verbatim_witness :
    (∀ evt ∈ handleEventDrop [exFlexEvent] exFlexEvent 547 607,
        evt.id = exFlexEvent.id → evt.start = 547 ∧ evt.«end» = 607) ∧
    handleEventDrop [exFlexEvent] exFlexEvent 547 607 =
      handleEventResize [exFlexEvent] exFlexEvent 547 607 :=
  handlers_commit_verbatim [exFlexEvent] exFlexEvent 547 607 (by decide)

/-- A second concrete flexible event, used for the C5 counterexample. -/
def exFlexEvent2 : ClassEvent :=
  { id := "ev2", title := "Workout", start := 540, «end» := 600
    resource :=
      { course_code := none, «section» := none, instructor := none
        location := none, is_fixed := false, category := some ("gym") } }

/-- Counterexample to C5: the claim says a proposal with `start >= end` is
rejected. Proposing the empty interval `[600, 600)` against a flexible event
is committed: the stored interval becomes `(600, 600)` rather than staying
`(540, 600)`. -/
theorem degenerate_interval_accepted_counterexample :
    (handleEventDrop [exFlexEvent2] exFlexEvent2 600 600).map
        (fun evt => (evt.start, evt.«end»)) = [(600, 600)] ∧
    handleEventDrop [exFlexEvent2] exFlexEvent2 600 600 ≠ [exFlexEvent2] := by
  decide

/-- C5 as amended: a move/resize of a flexible block is always accepted and
committed — for every proposed interval, including `start >= end` — and the
decision never depends on the other blocks (they are passed through
unchanged, so overlap with them never blocks the commit). -/
theorem flexible_move_accepted_unconditionally (events : List ClassEvent)
    (event : ClassEvent) (s e : Nat) (h : event.resource.is_fixed = false) :
    (∀ evt ∈ events, evt.id = event.id →
        { evt with start := s, «end» := e } ∈ handleEventDrop events event s e) ∧
    (∀ evt ∈ handleEventDrop events event s e, evt.id ≠ event.id → evt ∈ events) := by
  constructor
  · intro evt hm hid
    rw [handleEventDrop, if_neg (by simp [h])]
    exact List.mem_map.2 ⟨evt, hm, by simp [hid]⟩
  · intro evt hm hid
    rw [handleEventDrop, if_neg (by simp [h])] at hm
    obtain ⟨orig, ho, rfl⟩ := List.mem_map.1 hm
    by_cases hoid : orig.id = event.id
    · simp [hoid] at hid
    · simpa [hoid] using ho

/-- Witness for C5 (amended) at the degenerate proposal `[600, 600)`. -/
theorem flexible_move_accepted_unconditionally_witness :
    (∀ evt ∈ [exFlexEvent2], evt.id = exFlexEvent2.id →
        { evt with start := 600, «end» := 600 } ∈
          handleEventDrop [exFlexEvent2] exFlexEvent2 600 600) ∧
    (∀ evt ∈ handleEventDrop [exFlexEvent2] exFlexEvent2 600 600,
        evt.id ≠ exFlexEvent2.id → evt ∈ [exFlexEvent2]) :=
  flexible_move_accepted_unconditionally [exFlexEvent2] exFlexEvent2 600 600 (by decide)

/-! ## Claims about loading/window filtering (C7) -/

/-- A flexible event lying entirely in `[0, 10)` (minutes), long before any
realistic view window. -/
def exPastFlexible : FlexibleEvent :=
  { id := "old", title := "Old event", start_time := 0, end_time := 10
    location := none, description := none, category := none }

/-- Counterexample to C7: the claim says a flexible block wholly outside the
requested window contributes no occurrence. Loading with the window of days
`[1000, 2000]` (whose earliest instant is minute `1000 * 1440`) still yields
the occurrence of a flexible event that ended at minute 10. -/
theorem flexible_outside_window_included_counterexample :
    loadCalendarEvents [] [exPastFlexible] 1000 2000 =
      [flexibleCalendarEvent exPastFlexible] ∧
    (flexibleCalendarEvent exPastFlexible).«end» ≤ 1000 * 1440 := by
  constructor
  · rfl
  · decide

/-- Every occurrence emitted by the fixed-class expansion carries
`is_fixed = true`. -/
lemma mem_expandClass_is_fixed {s e : Nat} {c : ClassItem} {evt : ClassEvent}
    (h : evt ∈ expandClass s e c) : evt.resource.is_fixed = true := by
  obtain ⟨day, _, hd⟩ := List.mem_flatMap.1 h
  cases hmap : dayMap day with
  | none => rw [expandClassDay_none hmap] at hd; cases hd
  | some w =>
    rw [expandClassDay_some hmap] at hd
    obtain ⟨d', _, hif⟩ := List.mem_filterMap.1 hd
    by_cases hmod : d' % 7 = w
    · rw [if_pos hmod] at hif
      injection hif with h2
      subst h2
      rfl
    · rw [if_neg hmod] at hif
      cases hif

/-- C7 as amended: every flexible block contributes exactly one occurrence,
equal to its own interval, unconditionally — the loaded occurrence set applies
no window-intersection filter to flexible events (the window only shapes the
fixed-block expansion). -/
theorem flexible_occurrences_unfiltered (classes : List ClassItem)
    (flexibleEvents : List FlexibleEvent) (rangeStart rangeEnd : Nat) :
    (loadCalendarEvents classes flexibleEvents rangeStart rangeEnd).filter
        (fun evt => !evt.resource.is_fixed) =
      flexibleEvents.map flexibleCalendarEvent ∧
    ∀ event : FlexibleEvent,
      (flexibleCalendarEvent event).start = event.start_time ∧
      (flexibleCalendarEvent event).«end» = event.end_time := by
  refine ⟨?_, fun event => ⟨rfl, rfl⟩⟩
  rw [loadCalendarEvents, List.filter_append]
  have hfix : (loadFixedEvents classes rangeStart rangeEnd).filter
      (fun evt => !evt.resource.is_fixed) = [] := by
    rw [List.filter_eq_nil_iff]
    intro evt hm
    obtain ⟨c, _, hc⟩ := List.mem_flatMap.1 hm
    simp [mem_expandClass_is_fixed hc]
  have hflex : (flexibleEvents.map flexibleCalendarEvent).filter
      (fun evt => !evt.resource.is_fixed) = flexibleEvents.map flexibleCalendarEvent := by
    rw [List.filter_eq_self]
    intro evt hm
    obtain ⟨ev, _, rfl⟩ := List.mem_map.1 hm
    rfl
  rw [hfix, hflex, List.nil_append]

/-! ## Claims about boundary validation (C6) -/

/-- A candidate class whose daily start (10:00) is after its daily end
(09:00), with all presence checks satisfied. -/
def exBadEntry : ClassEntry :=
  { id := "1", course_name := "Algorithms", course_code := "", «section» := ""
    instructor := "", location := "", days := ["M"]
    start_time := "10:00", end_time := "09:00" }

/-- A personal-event form whose start (20:00) is after its end (19:00). -/
def exBadForm : EventForm :=
  { title := "Dinner", description := "", location := "", category := "personal"
    date := "2025-01-01", start_time := "20:00", end_time := "19:00" }

/-- Counterexample to C6: the claim says a candidate with
`dailyStart >= dailyEnd` (or event `start >= end`) is rejected at
construction. A class running 10:00-09:00 passes validation and is inserted
verbatim, and likewise a personal event running 20:00-19:00. -/
theorem out_of_order_times_accepted_counterexample :
    handleSave [exBadEntry] =
      .ok [{ course_name := "Algorithms", course_code := none, «section» := none
             instructor := none, location := none, days := ["M"]
             start_time := "10:00:00", end_time := "09:00:00", is_hidden := false }] ∧
    (handleSubmit exBadForm).isOk = true := by
  constructor
  · rfl
  · rfl

/-- The validation loop succeeds exactly when every entered class passes the
four presence checks, whatever the starting index. -/
lemma validateClassesFrom_isOk (i : Nat) (classes : List ClassEntry) :
    (validateClassesFrom i classes).isOk =
      classes.all fun c => !(c.course_name == "") && !(c.days.length == 0) &&
        !(c.start_time == "") && !(c.end_time == "") := by
  induction classes generalizing i with
  | nil => rfl
  | cons c rest ih =>
    rw [validateClassesFrom]
    split_ifs with h1 h2 h3 h4
    · simp [Except.isOk, Except.toBool, h1]
    · simp [Except.isOk, Except.toBool, h2]
    · simp [Except.isOk, Except.toBool, h3]
    · simp [Except.isOk, Except.toBool, h4]
    · rw [ih]
      simp [h1, h2, h3, h4]

/-- C6 as amended: the constructors are a presence gate only — a candidate
class is rejected iff its course name is empty, its `daysOfWeek` is empty
(as the claim states), or a time string is missing; a personal event is
rejected iff its title, date or a time string is missing. No ordering check
is performed, so a record with `dailyStart >= dailyEnd` (or an event with
`start >= end`) passes validation and enters the stored model. -/
theorem entry_validation_presence_only :
    (∀ classes : List ClassEntry, (handleSave classes).isOk =
        classes.all fun c => !(c.course_name == "") && !(c.days.length == 0) &&
          !(c.start_time == "") && !(c.end_time == "")) ∧
    (∀ formData : EventForm, (handleSubmit formData).isOk =
        (!(formData.title == "") && !(formData.date == "") &&
          !(formData.start_time == "") && !(formData.end_time == ""))) := by
  constructor
  · intro classes
    rw [← validateClassesFrom_isOk 0 classes, handleSave]
    cases validateClassesFrom 0 classes <;> rfl
  · intro formData
    rw [handleSubmit]
    split_ifs with h
    · rcases h with h | h | h | h <;> simp [Except.isOk, Except.toBool, h]
    · push_neg at h
      obtain ⟨h1, h2, h3, h4⟩ := h
      simp [Except.isOk, Except.toBool, h1, h2, h3, h4]

/-! ## Claims about the interchange serializer's text escaping (C9) -/

/-- A global single-character replace leaves a non-matching head character in
place. -/
lemma replaceChar_ne_cons {a x : Char} (r : List Char) (s : List Char) (h : x ≠ a) :
    replaceChar a r (x :: s) = x :: replaceChar a r s := by
  simp [replaceChar, h]

/-- `escapeText` expands characters independently: escaping a string is
escaping its head character followed by escaping the rest. -/
lemma escapeText_cons (c : Char) (s : List Char) :
    escapeText (c :: s) = escChar c ++ escapeText s := by
  by_cases h1 : c = '\\'
  · subst h1; rfl
  by_cases h2 : c = ';'
  · subst h2; rfl
  by_cases h3 : c = ','
  · subst h3; rfl
  by_cases h4 : c = '\n'
  · subst h4; rfl
  simp only [escapeText]
  rw [replaceChar_ne_cons _ _ h1, replaceChar_ne_cons _ _ h2,
    replaceChar_ne_cons _ _ h3, replaceChar_ne_cons _ _ h4]
  simp [escChar, h1, h2, h3, h4]

/-- A conformant reader copies a non-backslash head character unchanged. -/
lemma unescapeText_cons_ne {c : Char} (h : c ≠ '\\') (l : List Char) :
    unescapeText (c :: l) = c :: unescapeText l := by
  cases l <;> simp [unescapeText, h]

/-- A conformant reader recovers the exact original text from `escapeText`
output. -/
lemma unescapeText_escapeText (s : List Char) :
    unescapeText (escapeText s) = s := by
  induction s with
  | nil => rfl
  | cons c s ih =>
    rw [escapeText_cons]
    by_cases h1 : c = '\\'
    · subst h1
      calc unescapeText (escChar '\\' ++ escapeText s)
          = '\\' :: unescapeText (escapeText s) := rfl
        _ = '\\' :: s := by rw [ih]
    by_cases h2 : c = ';'
    · subst h2
      calc unescapeText (escChar ';' ++ escapeText s)
          = ';' :: unescapeText (escapeText s) := rfl
        _ = ';' :: s := by rw [ih]
    by_cases h3 : c = ','
    · subst h3
      calc unescapeText (escChar ',' ++ escapeText s)
          = ',' :: unescapeText (escapeText s) := rfl
        _ = ',' :: s := by rw [ih]
    by_cases h4 : c = '\n'
    · subst h4
      calc unescapeText (escChar '\n' ++ escapeText s)
          = '\n' :: unescapeText (escapeText s) := rfl
        _ = '\n' :: s := by rw [ih]
    have hc : escChar c = [c] := by simp [escChar, h1, h2, h3, h4]
    rw [hc, List.singleton_append, unescapeText_cons_ne h1, ih]

/-- C9: every free-text field of the produced document (calendar name,
summary, location, description) is embedded through `escapeText`, and a
conformant reader recovers each original string exactly — so labels
containing backslashes, semicolons, commas or newlines round-trip intact. -/
theorem ics_escaping_roundtrip (timestamp : String) (events : List ExportEvent)
    (calendarName : String) (event : ExportEvent) (hev : event ∈ events) :
    ("SUMMARY:" ++ escapeTextS event.title) ∈ generateICS timestamp events calendarName
    ∧ ("X-WR-CALNAME:" ++ escapeTextS calendarName) ∈
        generateICS timestamp events calendarName
    ∧ unescapeText (escapeText event.title.data) = event.title.data
    ∧ unescapeText (escapeText calendarName.data) = calendarName.data
    ∧ (∀ l, event.location = some l →
        ("LOCATION:" ++ escapeTextS l) ∈ generateICS timestamp events calendarName
        ∧ unescapeText (escapeText l.data) = l.data)
    ∧ (∀ d, event.description = some d →
        ("DESCRIPTION:" ++ escapeTextS d) ∈ generateICS timestamp events calendarName
        ∧ unescapeText (escapeText d.data) = d.data) := by
  have hmem : ∀ x : String, x ∈ eventLines timestamp event →
      x ∈ generateICS timestamp events calendarName := by
    intro x hx
    rw [generateICS]
    exact List.mem_append.2 (Or.inl (List.mem_append.2
      (Or.inr (List.mem_flatMap.2 ⟨event, hev, hx⟩))))
  refine ⟨?_, ?_, unescapeText_escapeText _, unescapeText_escapeText _, ?_, ?_⟩
  · exact hmem _ (by simp [eventLines])
  · simp [generateICS]
  · intro l hl
    exact ⟨hmem _ (by simp [eventLines, hl]), unescapeText_escapeText _⟩
  · intro d hd
    exact ⟨hmem _ (by simp [eventLines, hd]), unescapeText_escapeText _⟩

/-- A concrete export record whose free-text fields contain commas,
semicolons, a backslash and a newline. -/
def exTextEvent : ExportEvent :=
  { id := "e9", title := "Study, Chapter 5; review"
    start := some (3, 540), «end» := some (3, 600)
    location := some ("Lab; room 2"), description := some ("bring notes\nand pen") }

/-- Witness for C9 at a concrete record with a comma-and-semicolon label. -/
theorem ics_escaping_roundtrip_witness :
    ("SUMMARY:" ++ escapeTextS exTextEvent.title) ∈
        generateICS ("20250101T000000Z") [exTextEvent] ("My Class Schedule")
    ∧ ("X-WR-CALNAME:" ++ escapeTextS ("My Class Schedule")) ∈
        generateICS ("20250101T000000Z") [exTextEvent] ("My Class Schedule")
    ∧ unescapeText (escapeText exTextEvent.title.data) = exTextEvent.title.data
    ∧ unescapeText (escapeText ("My Class Schedule" : String).data) =
        ("My Class Schedule" : String).data
    ∧ (∀ l, exTextEvent.location = some l →
        ("LOCATION:" ++ escapeTextS l) ∈
            generateICS ("20250101T000000Z") [exTextEvent] ("My Class Schedule")
        ∧ unescapeText (escapeText l.data) = l.data)
    ∧ (∀ d, exTextEvent.description = some d →
        ("DESCRIPTION:" ++ escapeTextS d) ∈
            generateICS ("20250101T000000Z") [exTextEvent] ("My Class Schedule")
        ∧ unescapeText (escapeText d.data) = d.data) :=
  ics_escaping_roundtrip ("20250101T000000Z") [exTextEvent] ("My Class Schedule")
    exTextEvent (by simp)

/-! ## Claims about export inclusion (C10) -/

/-- C10: the export includes every stored flexible event unconditionally —
one record each, whatever its dates (the events query has no date or window
constraint, and `FlexibleEvent` has no hidden flag at all) — while the hidden
flag filters only the fixed classes: a hidden class contributes nothing, and
removing it leaves the export unchanged. -/
theorem export_includes_all_flexible (now : Nat) (classes : List ClassItem)
    (events : List FlexibleEvent) :
    (∀ event ∈ events,
        exportEventRecord event ∈ exportCalendarEvents now classes events) ∧
    (exportCalendarEvents now classes events).length =
      ((classes.filter fun c => !c.is_hidden).flatMap (exportClassRecords now)).length
        + events.length ∧
    (∀ c : ClassItem, c.is_hidden = true →
        exportCalendarEvents now (c :: classes) events =
          exportCalendarEvents now classes events) := by
  refine ⟨?_, ?_, ?_⟩
  · intro event hev
    exact List.mem_append.2 (Or.inr (List.mem_map.2 ⟨event, hev, rfl⟩))
  · rw [exportCalendarEvents, List.length_append, List.length_map]
  · intro c hc
    simp [exportCalendarEvents, List.filter_cons, hc]

/-- A hidden catalog class. -/
def exHiddenClass : ClassItem :=
  { id := "hc", course_name := "Hidden course", course_code := none
    «section» := none, instructor := none, location := none
    days := ["T"], start_time := (9, 0), end_time := (10, 0), is_hidden := true }

/-- A flexible event lying entirely on day 0, far in the past of any realistic
export time. -/
def exOldEvent : FlexibleEvent :=
  { id := "old-ev", title := "Ancient meeting", start_time := 60, end_time := 120
    location := none, description := none, category := some ("work") }

/-- Witness for C10: a past-dated event is exported, and prepending a hidden
class changes nothing. -/
theorem export_includes_all_flexible_witness :
    (∀ event ∈ [exOldEvent],
        exportEventRecord event ∈ exportCalendarEvents 999999 [] [exOldEvent]) ∧
    (exportCalendarEvents 999999 [] [exOldEvent]).length =
      ((([] : List ClassItem).filter (fun c => !c.is_hidden)).flatMap
          (exportClassRecords 999999)).length + [exOldEvent].length ∧
    (∀ c : ClassItem, c.is_hidden = true →
        exportCalendarEvents 999999 (c :: []) [exOldEvent] =
          exportCalendarEvents 999999 [] [exOldEvent]) :=
  export_includes_all_flexible 999999 [] [exOldEvent]

/-! ## Claims about the occurrence expansion (C3) -/

/-- Membership in the inclusive day interval. -/
lemma mem_eachDayOfInterval {s e d : Nat} :
    d ∈ eachDayOfInterval s e ↔ s ≤ d ∧ d ≤ e := by
  simp only [eachDayOfInterval, List.mem_range']
  constructor
  · rintro ⟨i, hi, rfl⟩
    omega
  · intro h
    exact ⟨d - s, by omega, by omega⟩

/-- The inclusive day interval lists each date once. -/
lemma nodup_eachDayOfInterval (s e : Nat) : (eachDayOfInterval s e).Nodup :=
  List.nodup_range' s (e + 1 - s)

/-- Counting, over a duplicate-free list containing `d`, the elements that
both satisfy `q` and equal `d`: one hit when `q d`, none otherwise. -/
lemma countP_and_mem {l : List Nat} (hl : l.Nodup) {d : Nat} (hd : d ∈ l)
    (q : Nat → Bool) :
    (l.countP fun x => q x && decide (x = d)) = if q d then 1 else 0 := by
  induction l with
  | nil => cases hd
  | cons x xs ih =>
    rw [List.countP_cons]
    rcases List.mem_cons.1 hd with rfl | hdx
    · have hzero : (xs.countP fun y => q y && decide (y = d)) = 0 := by
        rw [List.countP_eq_zero]
        intro y hy
        simp only [Bool.and_eq_true, decide_eq_true_eq]
        rintro ⟨-, rfl⟩
        exact (List.nodup_cons.1 hl).1 hy
      rw [hzero]
      by_cases hq : q d = true <;> simp [hq]
    · have hxd : x ≠ d := by
        intro h
        exact (List.nodup_cons.1 hl).1 (h ▸ hdx)
      rw [ih (List.nodup_cons.1 hl).2 hdx]
      simp [hxd]

/-- The complete graph of `dayMap` on recognized codes. -/
lemma dayMap_cases {x : String} {w : Nat} (h : dayMap x = some w) :
    (x = "U" ∧ w = 0) ∨ (x = "M" ∧ w = 1) ∨ (x = "T" ∧ w = 2) ∨
    (x = "W" ∧ w = 3) ∨ (x = "R" ∧ w = 4) ∨ (x = "F" ∧ w = 5) ∨
    (x = "S" ∧ w = 6) := by
  unfold dayMap at h
  split_ifs at h with h1 h2 h3 h4 h5 h6 h7
  · exact Or.inl ⟨h1, by injection h with h; omega⟩
  · exact Or.inr (Or.inl ⟨h2, by injection h with h; omega⟩)
  · exact Or.inr (Or.inr (Or.inl ⟨h3, by injection h with h; omega⟩))
  · exact Or.inr (Or.inr (Or.inr (Or.inl ⟨h4, by injection h with h; omega⟩)))
  · exact Or.inr (Or.inr (Or.inr (Or.inr (Or.inl
      ⟨h5, by injection h with h; omega⟩))))
  · exact Or.inr (Or.inr (Or.inr (Or.inr (Or.inr (Or.inl
      ⟨h6, by injection h with h; omega⟩)))))
  · exact Or.inr (Or.inr (Or.inr (Or.inr (Or.inr (Or.inr
      ⟨h7, by injection h with h; omega⟩)))))

/-- `dayMap` is injective on recognized weekday codes. -/
lemma dayMap_inj {x y : String} {w : Nat} (hx : dayMap x = some w)
    (hy : dayMap y = some w) : x = y := by
  rcases dayMap_cases hx with ⟨rfl, rfl⟩ | ⟨rfl, rfl⟩ | ⟨rfl, rfl⟩ | ⟨rfl, rfl⟩ |
      ⟨rfl, rfl⟩ | ⟨rfl, rfl⟩ | ⟨rfl, rfl⟩ <;>
    rcases dayMap_cases hy with ⟨rfl, h⟩ | ⟨rfl, h⟩ | ⟨rfl, h⟩ | ⟨rfl, h⟩ |
        ⟨rfl, h⟩ | ⟨rfl, h⟩ | ⟨rfl, h⟩ <;>
      first
        | rfl
        | (exfalso; omega)

/-- Recognized weekday indices lie below 7. -/
lemma dayMap_lt {day : String} {w : Nat} (h : dayMap day = some w) : w < 7 := by
  rcases dayMap_cases h with ⟨rfl, rfl⟩ | ⟨rfl, rfl⟩ | ⟨rfl, rfl⟩ | ⟨rfl, rfl⟩ |
      ⟨rfl, rfl⟩ | ⟨rfl, rfl⟩ | ⟨rfl, rfl⟩ <;> omega

/-- Over a duplicate-free code list, the indicators of mapping to a fixed
weekday index sum to one exactly when some code maps to it. -/
lemma sum_map_dayIndicator (days : List String) (hnd : days.Nodup) (w : Nat) :
    ((days.map fun day => if dayMap day = some w then 1 else 0).sum) =
      if days.any fun day => dayMap day == some w then 1 else 0 := by
  induction days with
  | nil => rfl
  | cons day rest ih =>
    rw [List.map_cons, List.sum_cons, ih (List.nodup_cons.1 hnd).2]
    by_cases h : dayMap day = some w
    · have hrest : (rest.any fun d' => dayMap d' == some w) = false := by
        rw [List.any_eq_false]
        intro d' hd'
        simp only [beq_iff_eq]
        intro hmap
        exact (List.nodup_cons.1 hnd).1 (dayMap_inj hmap h ▸ hd')
      simp [h, hrest]
    · simp [h]

/-- Counting, among the day's occurrences filtered from a duplicate-free date
list containing `d`, those whose projection singles out date `d`. -/
lemma countP_filterMap_if {l : List Nat} (hl : l.Nodup) {d : Nat} (hd : d ∈ l)
    (w : Nat) (f : Nat → ClassEvent) (p : ClassEvent → Bool)
    (hp : ∀ x, p (f x) = decide (x = d)) :
    ((l.filterMap fun x => if x % 7 = w then some (f x) else none).countP p) =
      if d % 7 = w then 1 else 0 := by
  rw [List.countP_filterMap]
  have hcong : (l.countP fun x =>
      ((Option.map p (if x % 7 = w then some (f x) else none)).getD false)) =
      l.countP fun x => decide (x % 7 = w) && decide (x = d) := by
    apply List.countP_congr
    intro x _
    by_cases hmod : x % 7 = w
    · simp [hmod, hp x]
    · simp [hmod]
  rw [hcong, countP_and_mem hl hd]
  by_cases hmod : d % 7 = w <;> simp [hmod]

/-- For one weekday code, the expansion contains exactly one occurrence whose
interval is date `d` at the class's daily times — provided the code maps to
`d`'s weekday and `d` is in the window — and none otherwise. -/
lemma countP_expandClassDay (s e d : Nat) (c : ClassItem) (day : String)
    (hsd : s ≤ d) (hde : d ≤ e) :
    ((expandClassDay s e c day).countP fun occ =>
        decide (occ.start = d * 1440 + timeOfDay c.start_time ∧
                occ.«end» = d * 1440 + timeOfDay c.end_time)) =
      if dayMap day = some (d % 7) then 1 else 0 := by
  cases hmap : dayMap day with
  | none =>
    rw [expandClassDay_none hmap]
    simp [hmap]
  | some w =>
    rw [expandClassDay_some hmap,
      countP_filterMap_if (nodup_eachDayOfInterval s e)
        (mem_eachDayOfInterval.2 ⟨hsd, hde⟩) w (classOccurrence c day) _
        (fun x => by
          rw [decide_eq_decide]
          show (x * 1440 + timeOfDay c.start_time = d * 1440 + timeOfDay c.start_time ∧
              x * 1440 + timeOfDay c.end_time = d * 1440 + timeOfDay c.end_time) ↔ x = d
          omega)]
    by_cases hmod : d % 7 = w
    · rw [if_pos hmod, if_pos (by rw [hmod])]
    · rw [if_neg hmod, if_neg (by intro h; injection h with h; exact hmod h.symm)]

/-- The length of one weekday code's filtered expansion is the number of
matching dates. -/
lemma length_filterMap_mod (l : List Nat) (w : Nat) (f : Nat → ClassEvent) :
    (l.filterMap fun x => if x % 7 = w then some (f x) else none).length =
      l.countP fun x => decide (x % 7 = w) := by
  induction l with
  | nil => rfl
  | cons x xs ih =>
    by_cases h : x % 7 = w <;>
      simp [List.filterMap_cons, List.countP_cons, h, ih]

/-- Any 14 consecutive dates contain exactly two with a given weekday index. -/
lemma countP_mod7_range14 (k : Nat) (hk : k < 7) :
    ∀ s : Nat, ((List.range' s 14).countP fun x => decide (x % 7 = k)) = 2 := by
  intro s
  induction s with
  | zero => interval_cases k <;> decide
  | succ n ih =>
    have hsucc : List.range' n 14 = n :: List.range' (n + 1) 13 := by
      rw [show (14 : Nat) = 13 + 1 from rfl, List.range'_succ]
    have hconcat : List.range' (n + 1) 14 =
        List.range' (n + 1) 13 ++ [(n + 1) + 1 * 13] := by
      rw [show (14 : Nat) = 13 + 1 from rfl, List.range'_concat]
    have hmod : ((n + 1) + 1 * 13) % 7 = n % 7 := by omega
    rw [hsucc, List.countP_cons] at ih
    rw [hconcat, List.countP_append]
    by_cases h : n % 7 = k
    · simp [List.countP_singleton, hmod, h] at ih ⊢
      omega
    · simp [List.countP_singleton, hmod, h] at ih ⊢
      omega

/-- C3: over any inclusive window, a class's expansion emits — for each date
`d` in the window — exactly one occurrence carrying the interval
`d + dailyStart .. d + dailyEnd` when some weekday code of the (set-like,
duplicate-free) pattern matches `d`'s weekday, and none otherwise; a hidden
class contributes nothing to the loaded fixed events; and a `{Mon, Wed}`
class expanded over 14 calendar days yields exactly 4 occurrences. -/
theorem expandClass_exact_occurrences (classes : List ClassItem) (c : ClassItem)
    (s e d : Nat) (hnd : c.days.Nodup) (hsd : s ≤ d) (hde : d ≤ e) :
    ((expandClass s e c).countP fun occ =>
        decide (occ.start = d * 1440 + timeOfDay c.start_time ∧
                occ.«end» = d * 1440 + timeOfDay c.end_time)) =
      (if c.days.any fun day => dayMap day == some (d % 7) then 1 else 0) ∧
    (∀ c' : ClassItem, c'.is_hidden = true →
        loadFixedEvents (c' :: classes) s e = loadFixedEvents classes s e) ∧
    (c.days = ["M", "W"] → (expandClass s (s + 13) c).length = 4) := by
  refine ⟨?_, ?_, ?_⟩
  · rw [expandClass, List.countP_flatMap]
    have h1 : ∀ day ∈ c.days,
        ((List.countP fun occ =>
            decide (occ.start = d * 1440 + timeOfDay c.start_time ∧
                    occ.«end» = d * 1440 + timeOfDay c.end_time)) ∘
          expandClassDay s e c) day =
          (fun day => if dayMap day = some (d % 7) then 1 else 0) day :=
      fun day _ => countP_expandClassDay s e d c day hsd hde
    rw [List.map_congr_left h1, sum_map_dayIndicator c.days hnd (d % 7)]
  · intro c' hc'
    simp [loadFixedEvents, List.filter_cons, hc']
  · intro hdays
    rw [expandClass, hdays, List.flatMap_cons, List.flatMap_cons,
      List.flatMap_nil, List.append_nil, List.length_append,
      expandClassDay_some (show dayMap ("M") = some 1 from rfl),
      expandClassDay_some (show dayMap ("W") = some 3 from rfl),
      length_filterMap_mod, length_filterMap_mod]
    have h14 : eachDayOfInterval s (s + 13) = List.range' s 14 := by
      rw [eachDayOfInterval]
      congr 1
      omega
    rw [h14, countP_mod7_range14 1 (by omega) s, countP_mod7_range14 3 (by omega) s]

/-- A concrete Monday/Wednesday class, 9:00-10:15. -/
def exMWClass : ClassItem :=
  { id := "mw", course_name := "Discrete Math", course_code := some ("MATH240")
    «section» := none, instructor := none, location := none
    days := ["M", "W"], start_time := (9, 0), end_time := (10, 15)
    is_hidden := false }

/-- Witness for C3 at the `{Mon, Wed}` class over the window of days 0..13,
probing date 1 (a Monday). -/
theorem expandClass_exact_occurrences_witness :
    ((expandClass 0 13 exMWClass).countP fun occ =>
        decide (occ.start = 1 * 1440 + timeOfDay exMWClass.start_time ∧
                occ.«end» = 1 * 1440 + timeOfDay exMWClass.end_time)) =
      (if exMWClass.days.any fun day => dayMap day == some (1 % 7) then 1 else 0) ∧
    (∀ c' : ClassItem, c'.is_hidden = true →
        loadFixedEvents (c' :: []) 0 13 = loadFixedEvents [] 0 13) ∧
    (exMWClass.days = ["M", "W"] → (expandClass 0 (0 + 13) exMWClass).length = 4) :=
  expandClass_exact_occurrences [] exMWClass 0 13 1 (by decide) (by decide) (by decide)

/-! ## Claims about export recurrence collapsing (C8) -/

/-- `getNextDayOfWeek` yields the nearest strictly-future date of the
requested weekday: later than today, at most a week ahead, of the right
weekday, and no strictly earlier future date matches. -/
lemma getNextDayOfWeek_spec (n w : Nat) (hw : w < 7) :
    n < getNextDayOfWeek n w ∧ getNextDayOfWeek n w ≤ n + 7 ∧
    getNextDayOfWeek n w % 7 = w ∧
    ∀ j, n < j → j < getNextDayOfWeek n w → j % 7 ≠ w := by
  unfold getNextDayOfWeek
  split_ifs with h
  · refine ⟨by omega, by omega, by omega, ?_⟩
    intro j hj1 hj2
    omega
  · refine ⟨by omega, by omega, by omega, ?_⟩
    intro j hj1 hj2
    omega

/-- Cancelling a common prefix of two appended strings. -/
lemma string_append_left_cancel {a b c : String} (h : a ++ b = a ++ c) :
    b = c := by
  have hd : (a ++ b).data = (a ++ c).data := by rw [h]
  rw [String.data_append, String.data_append] at hd
  have hbc := List.append_cancel_left hd
  cases b
  cases c
  exact congrArg String.mk hbc

/-- C8: for every visible fixed block and every weekday code of its
(duplicate-free) pattern, the export contains exactly one record with that
code's id; its concrete date is `getNextDayOfWeek` of the export time — a
strictly future date of the right weekday with nothing nearer — carrying the
block's daily times (so the recurrence is collapsed to one canonical record
per weekday, not one per expanded occurrence); every such record reaches the
exported document, and hidden fixed blocks contribute no records. -/
theorem export_one_record_per_weekday (now : Nat) (classes : List ClassItem)
    (events : List FlexibleEvent) (c : ClassItem) (hc : c ∈ classes)
    (hvis : c.is_hidden = false) (hnd : c.days.Nodup) (day : String)
    (hday : day ∈ c.days) (w : Nat) (hw : dayMap day = some w) :
    ((exportClassRecords now c).countP fun r =>
        decide (r.id = c.id ++ "-" ++ day)) = 1 ∧
    (∀ r ∈ exportClassRecords now c, r.id = c.id ++ "-" ++ day →
        r.start = some (getNextDayOfWeek now w, timeOfDay c.start_time) ∧
        r.«end» = some (getNextDayOfWeek now w, timeOfDay c.end_time)) ∧
    now < getNextDayOfWeek now w ∧
    getNextDayOfWeek now w % 7 = w ∧
    (∀ j, now < j → j < getNextDayOfWeek now w → j % 7 ≠ w) ∧
    (∀ r ∈ exportClassRecords now c, r ∈ exportCalendarEvents now classes events) ∧
    (∀ c' : ClassItem, c'.is_hidden = true →
        exportCalendarEvents now (c' :: classes) events =
          exportCalendarEvents now classes events) := by
  obtain ⟨hlt, -, hmod, hmin⟩ := getNextDayOfWeek_spec now w (dayMap_lt hw)
  refine ⟨?_, ?_, hlt, hmod, hmin, ?_, ?_⟩
  · rw [exportClassRecords, List.countP_map]
    have h1 : (c.days.countP fun day' => decide (c.id ++ "-" ++ day' = c.id ++ "-" ++ day))
        = c.days.countP (· == day) := by
      apply List.countP_congr
      intro day' _
      simp only [decide_eq_true_eq, beq_iff_eq]
      constructor
      · intro h
        exact string_append_left_cancel h
      · intro h
        rw [h]
    rw [show ((fun r : ExportEvent => decide (r.id = c.id ++ "-" ++ day)) ∘ fun day' =>
        ({ id := c.id ++ "-" ++ day'
           title := match c.course_code with
             | some code => code ++ ": " ++ c.course_name
             | none => c.course_name
           start := ((dayMap day').map (getNextDayOfWeek now)).map fun b =>
             (b, timeOfDay c.start_time)
           «end» := ((dayMap day').map (getNextDayOfWeek now)).map fun b =>
             (b, timeOfDay c.end_time)
           location := c.location
           description := none } : ExportEvent)) =
        fun day' => decide (c.id ++ "-" ++ day' = c.id ++ "-" ++ day) from rfl, h1]
    exact List.count_eq_one_of_mem hnd hday
  · intro r hr hid
    rw [exportClassRecords] at hr
    obtain ⟨day', hday', rfl⟩ := List.mem_map.1 hr
    have hdd : day' = day := string_append_left_cancel hid
    subst hdd
    constructor <;> simp [hw]
  · intro r hr
    rw [exportCalendarEvents]
    refine List.mem_append.2 (Or.inl (List.mem_flatMap.2 ⟨c, ?_, hr⟩))
    rw [List.mem_filter]
    exact ⟨hc, by rw [hvis]; rfl⟩
  · intro c' hc'
    simp [exportCalendarEvents, List.filter_cons, hc']

/-- Witness for C8: the Monday/Wednesday class exported on day 0 (a Sunday);
its Monday record is dated day 1. -/
theorem export_one_record_per_weekday_witness :
    ((exportClassRecords 0 exMWClass).countP fun r =>
        decide (r.id = exMWClass.id ++ "-" ++ "M")) = 1 ∧
    (∀ r ∈ exportClassRecords 0 exMWClass, r.id = exMWClass.id ++ "-" ++ "M" →
        r.start = some (getNextDayOfWeek 0 1, timeOfDay exMWClass.start_time) ∧
        r.«end» = some (getNextDayOfWeek 0 1, timeOfDay exMWClass.end_time)) ∧
    0 < getNextDayOfWeek 0 1 ∧
    getNextDayOfWeek 0 1 % 7 = 1 ∧
    (∀ j, 0 < j → j < getNextDayOfWeek 0 1 → j % 7 ≠ 1) ∧
    (∀ r ∈ exportClassRecords 0 exMWClass,
        r ∈ exportCalendarEvents 0 [exMWClass] []) ∧
    (∀ c' : ClassItem, c'.is_hidden = true →
        exportCalendarEvents 0 (c' :: [exMWClass]) [] =
          exportCalendarEvents 0 [exMWClass] []) :=
  export_one_record_per_weekday 0 [exMWClass] [] exMWClass (by decide) (by decide)
    (by decide) ("M") (by decide) 1 (by decide)

/-! ## Claims about overlap-pair deduplication (C2) -/

/-- The dedup key of a candidate pair. -/
def pairKeyOf (p : ClassEvent × ClassEvent) : String := pairKey p.1.id p.2.id

/-- Characters with equal code points are equal. -/
lemma char_toNat_inj {c d : Char} (h : c.toNat = d.toNat) : c = d :=
  Char.eq_of_val_eq (UInt32.eq_of_val_eq (Fin.ext h))

/-- The sort comparison is total. -/
lemma charListLe_total : ∀ a b : List Char,
    charListLe a b = false → charListLe b a = true := by
  intro a
  induction a with
  | nil =>
    intro b h
    simp [charListLe] at h
  | cons c cs ih =>
    intro b h
    cases b with
    | nil => rfl
    | cons d ds =>
      simp only [charListLe] at h ⊢
      by_cases hcd : c = d
      · subst hcd
        rw [if_pos rfl] at h ⊢
        exact ih ds h
      · rw [if_neg hcd] at h
        rw [if_neg (Ne.symm hcd)]
        rw [decide_eq_false_iff_not] at h
        rw [decide_eq_true_eq]
        have hne : c.toNat ≠ d.toNat := fun hh => hcd (char_toNat_inj hh)
        omega

/-- The sort comparison is antisymmetric. -/
lemma charListLe_antisymm : ∀ a b : List Char,
    charListLe a b = true → charListLe b a = true → a = b := by
  intro a
  induction a with
  | nil =>
    intro b h1 h2
    cases b with
    | nil => rfl
    | cons d ds => simp [charListLe] at h2
  | cons c cs ih =>
    intro b h1 h2
    cases b with
    | nil => simp [charListLe] at h1
    | cons d ds =>
      simp only [charListLe] at h1 h2
      by_cases hcd : c = d
      · subst hcd
        rw [if_pos rfl] at h1 h2
        rw [ih ds h1 h2]
      · rw [if_neg hcd] at h1
        rw [if_neg (Ne.symm hcd)] at h2
        rw [decide_eq_true_eq] at h1 h2
        omega

/-- Strings with equal character lists are equal. -/
lemma string_data_inj {a b : String} (h : a.data = b.data) : a = b := by
  cases a
  cases b
  exact congrArg String.mk h

/-- The dedup key does not depend on the orientation of the pair. -/
lemma pairKey_symm (a b : String) : pairKey a b = pairKey b a := by
  unfold pairKey
  by_cases h1 : strLe a b = true
  · rw [if_pos h1]
    by_cases h2 : strLe b a = true
    · rw [if_pos h2, string_data_inj (charListLe_antisymm a.data b.data h1 h2)]
    · rw [if_neg h2]
  · have h1f : strLe a b = false := by
      revert h1
      cases strLe a b <;> simp
    have h2 : strLe b a = true := charListLe_total a.data b.data h1f
    rw [if_neg h1, if_pos h2]

/-- Every pair kept by the seen-set filter was a candidate. -/
lemma mem_dedupPairs : ∀ (l : List (ClassEvent × ClassEvent)) (seen : List String)
    (p : ClassEvent × ClassEvent), p ∈ dedupPairs l seen → p ∈ l := by
  intro l
  induction l with
  | nil =>
    intro seen p h
    cases h
  | cons q rest ih =>
    intro seen p h
    by_cases hk : pairKey q.1.id q.2.id ∈ seen
    · rw [dedupPairs, if_pos hk] at h
      exact List.mem_cons_of_mem _ (ih seen p h)
    · rw [dedupPairs, if_neg hk] at h
      rcases List.mem_cons.1 h with rfl | hmem
      · exact List.mem_cons_self _ _
      · exact List.mem_cons_of_mem _ (ih _ p hmem)

/-- The kept pairs have pairwise distinct keys, none of them already seen. -/
lemma dedupPairs_keys (l : List (ClassEvent × ClassEvent)) :
    ∀ seen : List String,
      ((dedupPairs l seen).map pairKeyOf).Nodup ∧
      ∀ k ∈ (dedupPairs l seen).map pairKeyOf, k ∉ seen := by
  induction l with
  | nil =>
    intro seen
    refine ⟨List.nodup_nil, ?_⟩
    intro k hk
    simp [dedupPairs] at hk
  | cons q rest ih =>
    intro seen
    by_cases hk : pairKey q.1.id q.2.id ∈ seen
    · rw [dedupPairs, if_pos hk]
      exact ih seen
    · rw [dedupPairs, if_neg hk]
      obtain ⟨hnd, hdisj⟩ := ih (pairKey q.1.id q.2.id :: seen)
      constructor
      · rw [List.map_cons, List.nodup_cons]
        exact ⟨fun hmem => (hdisj _ hmem) (List.mem_cons_self _ _), hnd⟩
      · intro k hkmem
        rcases List.mem_cons.1 (by rwa [List.map_cons] at hkmem) with rfl | hmem
        · exact hk
        · intro hin
          exact (hdisj _ hmem) (List.mem_cons_of_mem _ hin)

/-- Every candidate's key is either already seen or appears among the kept
pairs' keys. -/
lemma dedupPairs_covers (l : List (ClassEvent × ClassEvent)) :
    ∀ (seen : List String) (p : ClassEvent × ClassEvent), p ∈ l →
      pairKeyOf p ∈ seen ∨ pairKeyOf p ∈ (dedupPairs l seen).map pairKeyOf := by
  induction l with
  | nil =>
    intro seen p h
    cases h
  | cons q rest ih =>
    intro seen p hp
    by_cases hk : pairKey q.1.id q.2.id ∈ seen
    · rw [dedupPairs, if_pos hk]
      rcases List.mem_cons.1 hp with rfl | hmem
      · exact Or.inl hk
      · exact ih seen p hmem
    · rw [dedupPairs, if_neg hk]
      rcases List.mem_cons.1 hp with rfl | hmem
      · right
        rw [List.map_cons]
        exact List.mem_cons_self _ _
      · rcases ih (pairKey q.1.id q.2.id :: seen) p hmem with hin | hin
        · rcases List.mem_cons.1 hin with heq | hin2
          · right
            rw [List.map_cons, heq]
            exact List.mem_cons_self _ _
          · exact Or.inl hin2
        · right
          rw [List.map_cons]
          exact List.mem_cons_of_mem _ hin

/-- The candidate pairs are exactly the ordered pairs of overlapping events. -/
lemma mem_overlapCandidates {events : List ClassEvent}
    {p : ClassEvent × ClassEvent} :
    p ∈ overlapCandidates events ↔
      p.1 ∈ events ∧ p.2 ∈ events ∧ eventsOverlap p.1 p.2 = true := by
  constructor
  · intro h
    obtain ⟨ev, hev, hmem⟩ := List.mem_flatMap.1 h
    obtain ⟨ov, hov, heq⟩ := List.mem_map.1 hmem
    obtain ⟨hove, hovl⟩ := List.mem_filter.1 hov
    subst heq
    exact ⟨hev, hove, hovl⟩
  · rintro ⟨h1, h2, h3⟩
    exact List.mem_flatMap.2
      ⟨p.1, h1, List.mem_map.2 ⟨p.2, List.mem_filter.2 ⟨h2, h3⟩, rfl⟩⟩

/-- A predicate that pins the image under `f` to a single value holds at most
once along a list whose `f`-image is duplicate-free. -/
lemma countP_le_one_of_map_nodup {α β : Type} (l : List α) (f : α → β)
    (hnd : (l.map f).Nodup) (pr : α → Bool) (k : β)
    (hpk : ∀ x, pr x = true → f x = k) : l.countP pr ≤ 1 := by
  induction l with
  | nil => simp
  | cons x xs ih =>
    rw [List.countP_cons]
    rw [List.map_cons, List.nodup_cons] at hnd
    by_cases hx : pr x = true
    · have hzero : xs.countP pr = 0 := by
        rw [List.countP_eq_zero]
        intro y hy hpy
        have hmem : f x ∈ xs.map f := by
          rw [hpk x hx, ← hpk y hpy]
          exact List.mem_map_of_mem f hy
        exact hnd.1 hmem
      rw [hzero]
      simp [hx]
    · rw [if_neg hx]
      simpa using ih hnd.2

/-- C2 as amended: every reported pair is a genuine overlap of two distinct
events of the list (no self-pairs, touching endpoints excluded); and provided
the dash-joined sorted id key is injective on the candidate pairs — which
holds e.g. when ids contain no `'-'` — each unordered overlapping pair is
reported exactly once, whichever occurrence was evaluated first. Without that
proviso a key collision silently drops a pair (see the counterexample). -/
theorem overlappingPairs_exactly_once (events : List ClassEvent)
    (a b : ClassEvent) (ha : a ∈ events) (hb : b ∈ events)
    (hab : eventsOverlap a b = true)
    (hinj : ∀ p ∈ overlapCandidates events,
        pairKeyOf p = pairKey a.id b.id →
        (p.1.id = a.id ∧ p.2.id = b.id) ∨ (p.1.id = b.id ∧ p.2.id = a.id)) :
    ((overlappingPairs events).countP fun p =>
        decide ((p.1.id = a.id ∧ p.2.id = b.id) ∨
                (p.1.id = b.id ∧ p.2.id = a.id))) = 1 ∧
    ∀ p ∈ overlappingPairs events,
      p.1 ∈ events ∧ p.2 ∈ events ∧ p.1.id ≠ p.2.id ∧
      p.1.start < p.2.«end» ∧ p.2.start < p.1.«end» := by
  have hsub : ∀ p ∈ overlappingPairs events, p ∈ overlapCandidates events :=
    fun p hp => mem_dedupPairs _ _ p hp
  constructor
  · apply Nat.le_antisymm
    · apply countP_le_one_of_map_nodup _ pairKeyOf
        (dedupPairs_keys (overlapCandidates events) []).1 _ (pairKey a.id b.id)
      intro p hp
      rw [decide_eq_true_eq] at hp
      rcases hp with ⟨h1, h2⟩ | ⟨h1, h2⟩
      · unfold pairKeyOf
        rw [h1, h2]
      · unfold pairKeyOf
        rw [h1, h2, pairKey_symm]
    · have hcand : (a, b) ∈ overlapCandidates events :=
        mem_overlapCandidates.2 ⟨ha, hb, hab⟩
      rcases dedupPairs_covers _ [] (a, b) hcand with hin | hin
      · cases hin
      · obtain ⟨q, hq, hkeq⟩ := List.mem_map.1 hin
        have hq' := hinj q (hsub q hq) hkeq
        exact List.countP_pos_iff.2 ⟨q, hq, by rw [decide_eq_true_eq]; exact hq'⟩
  · intro p hp
    obtain ⟨h1, h2, h3⟩ := mem_overlapCandidates.1 (hsub p hp)
    rw [eventsOverlap] at h3
    simp only [Bool.and_eq_true, decide_eq_true_eq] at h3
    obtain ⟨⟨h4, h5⟩, h6⟩ := h3
    exact ⟨h1, h2, h4, h5, h6⟩

/-- Concrete overlapping events `A = [540, 600)` and `B = [570, 630)` and a
disjoint `C = [660, 720)`. -/
def exA : ClassEvent :=
  { id := "A", title := "Alpha", start := 540, «end» := 600
    resource :=
      { course_code := none, «section» := none, instructor := none
        location := none, is_fixed := false, category := none } }

/-- See `exA`. -/
def exB : ClassEvent :=
  { id := "B", title := "Beta", start := 570, «end» := 630
    resource :=
      { course_code := none, «section» := none, instructor := none
        location := none, is_fixed := false, category := none } }

/-- See `exA`. -/
def exC : ClassEvent :=
  { id := "C", title := "Gamma", start := 660, «end» := 720
    resource :=
      { course_code := none, «section» := none, instructor := none
        location := none, is_fixed := false, category := none } }

/-- Witness for C2 (amended) on `{A, B, C}` with the single overlap `{A, B}`. -/
theorem overlappingPairs_exactly_once_witness :
    ((overlappingPairs [exA, exB, exC]).countP fun p =>
        decide ((p.1.id = exA.id ∧ p.2.id = exB.id) ∨
                (p.1.id = exB.id ∧ p.2.id = exA.id))) = 1 ∧
    ∀ p ∈ overlappingPairs [exA, exB, exC],
      p.1 ∈ [exA, exB, exC] ∧ p.2 ∈ [exA, exB, exC] ∧ p.1.id ≠ p.2.id ∧
      p.1.start < p.2.«end» ∧ p.2.start < p.1.«end» :=
  overlappingPairs_exactly_once [exA, exB, exC] exA exB (by decide) (by decide)
    (by decide) (by decide)

/-- Four mutually overlapping events over `[0, 10)` whose ids contain dashes:
the sorted joined keys of the distinct pairs `{"a-b", "c"}` and
`{"a", "b-c"}` coincide (both are `"a-b-c"`). -/
def exDash1 : ClassEvent :=
  { id := "a-b", title := "E1", start := 0, «end» := 10
    resource :=
      { course_code := none, «section» := none, instructor := none
        location := none, is_fixed := false, category := none } }

/-- See `exDash1`. -/
def exDash2 : ClassEvent :=
  { id := "c", title := "E2", start := 0, «end» := 10
    resource :=
      { course_code := none, «section» := none, instructor := none
        location := none, is_fixed := false, category := none } }

/-- See `exDash1`. -/
def exDash3 : ClassEvent :=
  { id := "a", title := "E3", start := 0, «end» := 10
    resource :=
      { course_code := none, «section» := none, instructor := none
        location := none, is_fixed := false, category := none } }

/-- See `exDash1`. -/
def exDash4 : ClassEvent :=
  { id := "b-c", title := "E4", start := 0, «end» := 10
    resource :=
      { course_code := none, «section» := none, instructor := none
        location := none, is_fixed := false, category := none } }

/-- Counterexample to C2: on these four pairwise-overlapping events the
distinct overlapping pair `{"a", "b-c"}` is reported zero times — its dedup
key `"a-b-c"` was already claimed by the pair `{"a-b", "c"}` — contradicting
"exactly one pair for each pair of distinct overlapping occurrences". -/
theorem overlapping_pair_dropped_counterexample :
    eventsOverlap exDash3 exDash4 = true ∧
    exDash3 ∈ [exDash1, exDash2, exDash3, exDash4] ∧
    exDash4 ∈ [exDash1, exDash2, exDash3, exDash4] ∧
    ((overlappingPairs [exDash1, exDash2, exDash3, exDash4]).countP fun p =>
        decide ((p.1.id = exDash3.id ∧ p.2.id = exDash4.id) ∨
                (p.1.id = exDash4.id ∧ p.2.id = exDash3.id))) = 0 := by
  decide

end CalendarModular
